import Mathlib

/-!
# Jeopardy board: shallow embedding of `jeopardy.js`

The script keeps two process-wide arrays, `gameTable` (the reveal state of every
cell, indexed `gameTable[x][y]` with `x` the clue row and `y` the category
column) and `clues` (one shuffled clue array per fetched category, indexed
`clues[y][x]`), and writes to a table in the page.  Every function of the script
is rendered here as a pure function on an explicit `Game` state.  What the
outside world supplies (the responses of the remote service and the values of
`Math.random`) is passed in as arguments.  A thrown `TypeError` or a rejected
request is the `Except.error` result; the half-built state such a failure leaves
behind is not kept.  The loading indicator and the label of the start button are
not part of the state.
-/

namespace Jeopardy

/-! ## Data model -/

/-- Failure of a script function: a thrown `TypeError` (property read on
`undefined`) or a rejected network request. -/
inductive JsError where
  | typeError
  | network
deriving DecidableEq, Repr

/-- One clue as delivered by the service. -/
structure Clue where
  question : String
  answer : String
deriving DecidableEq, Repr

/-- The two non-null values stored in a `gameTable` cell. -/
inductive Showing where
  | question
  | answer
deriving DecidableEq, Repr

/-- A `gameTable` cell: `none` is `null` (hidden). -/
abbrev CellState := Option Showing

/-- One entry of the category listing returned by `categories?count=100`. -/
structure CatEntry where
  id : Nat
  title : String
deriving DecidableEq, Repr

/-- Body of the response of `category?id=...`. -/
structure Category where
  title : String
  clues : List Clue
deriving DecidableEq, Repr

/-- A `td.data-cell` element: its id is the text `y-x`, `html` is what it shows. -/
structure Cell where
  y : Nat
  x : Nat
  html : String
deriving DecidableEq, Repr

/-- Content of one `table#jeopardy`: the `th` texts of its `.header-row` and the
`tr.body-row` rows of its `.body`. -/
structure Table where
  headerRow : List String
  body : List (List Cell)
deriving DecidableEq, Repr

/-- The `table#jeopardy` elements of `.container` in document order.  `none` is a
table whose children were removed by `.empty()`. -/
abbrev Dom := List (Option Table)

/-- The mutable state of the script: the two globals and the page. -/
structure Game where
  gameTable : List (List CellState)
  clues : List (List Clue)
  dom : Dom
deriving DecidableEq, Repr

/-- State at page load: `let gameTable = []; let clues = [];` and no table. -/
def Game.initial : Game := ⟨[], [], []⟩

/-- The constant `NUM_CATEGORIES` (line 34). -/
def NUM_CATEGORIES : Nat := 6

/-! ## shuffle (lines 26-32) -/

/-- The values of `Math.floor(Math.random() * (i + 1))` met by one call of
`shuffle`: at loop index `i` the draw is an index in `0..i`. -/
abbrev Draws := (i : Nat) → Fin (i + 1)

/-- The destructuring swap `[a[i], a[j]] = [a[j], a[i]]`: both reads happen first,
then `a[i]` and `a[j]` are written in that order.  Inside `shuffle` both indices
are below `a.length`, so the second branch is never taken there. -/
def swap {α : Type} (a : List α) (i j : Nat) : List α :=
  match a[i]?, a[j]? with
  | some ai, some aj => (a.set i aj).set j ai
  | _, _ => a

/-- The loop of `shuffle` entered with loop variable `i`, running down to `1`. -/
def shuffleFrom {α : Type} (draw : Draws) : Nat → List α → List α
  | 0, a => a
  | i + 1, a => shuffleFrom draw i (swap a (i + 1) (draw (i + 1)).val)

/-- The function `shuffle(a)`: the loop starts at `a.length - 1`. -/
def shuffle {α : Type} (draw : Draws) (a : List α) : List α :=
  shuffleFrom draw (a.length - 1) a

/-! ## getCategoryIds and getCategory (lines 41-73) -/

/-- The loop `for (let i = 0; i <= NUM_CATEGORIES; i++)` of `getCategoryIds`,
with `n` iterations left, loop variable `i` and accumulator `categories`.
Reading `.id` of a missing entry `catArr[i]` throws. -/
def idsLoop (num : Nat) (catArr : List CatEntry) :
    Nat → Nat → List Nat → Except JsError (List Nat)
  | 0, _, categories => .ok categories
  | n + 1, i, categories =>
    if categories.length = num then .ok categories
    else
      match catArr[i]? with
      | none => .error .typeError
      | some entry => idsLoop num catArr n (i + 1) (categories ++ [entry.id])

/-- The function `getCategoryIds()`: `res` is the awaited response of the
listing request and `draw` the random draws of its `shuffle`. -/
def getCategoryIds (res : Except JsError (List CatEntry)) (draw : Draws) :
    Except JsError (List Nat) :=
  match res with
  | .error e => .error e
  | .ok data => idsLoop NUM_CATEGORIES (shuffle draw data) (NUM_CATEGORIES + 1) 0 []

/-- The function `getCategory(catId)`: `res` is the awaited response. -/
def getCategory (res : Except JsError Category) : Except JsError Category :=
  match res with
  | .error e => .error e
  | .ok data => .ok ⟨data.title, data.clues⟩

/-! ## Page operations used by the script -/

/-- The call `$("#jeopardy").empty()`: the first `#jeopardy` loses its children. -/
def emptyJeopardy : Dom → Dom
  | [] => []
  | _ :: rest => none :: rest

/-- The call `$(".container").prepend($table)` with a fresh table. -/
def prependTable (d : Dom) : Dom := some ⟨[], []⟩ :: d

/-- The call `$(".header-row").append($catHeader)`: every header row present
receives the new `th`. -/
def appendHeader (title : String) (d : Dom) : Dom :=
  d.map (Option.map fun t => ⟨t.headerRow ++ [title], t.body⟩)

/-- The call `$(".body").append($row)`: every table body present receives the row. -/
def appendRow (row : List Cell) (d : Dom) : Dom :=
  d.map (Option.map fun t => ⟨t.headerRow, t.body ++ [row]⟩)

/-- Rewrite the first cell of a row whose id is `y-x`, if there is one. -/
def setHtmlRow (y x : Nat) (s : String) : List Cell → Option (List Cell)
  | [] => none
  | c :: cs =>
    if c.y = y ∧ c.x = x then some (⟨c.y, c.x, s⟩ :: cs)
    else (setHtmlRow y x s cs).map (c :: ·)

/-- Rewrite the first cell of a table body whose id is `y-x`, if there is one. -/
def setHtmlBody (y x : Nat) (s : String) : List (List Cell) → Option (List (List Cell))
  | [] => none
  | r :: rs =>
    match setHtmlRow y x s r with
    | some r' => some (r' :: rs)
    | none => (setHtmlBody y x s rs).map (r :: ·)

/-- Rewrite the first cell of the page whose id is `y-x`, if there is one. -/
def setHtmlDom (y x : Nat) (s : String) : Dom → Option Dom
  | [] => none
  | none :: ts => (setHtmlDom y x s ts).map (none :: ·)
  | some t :: ts =>
    match setHtmlBody y x s t.body with
    | some b => some (some ⟨t.headerRow, b⟩ :: ts)
    | none => (setHtmlDom y x s ts).map (some t :: ·)

/-- The call `$("#y-x").html(s)`: the first element with that id gets content
`s`; with no such element nothing changes. -/
def setHtml (y x : Nat) (s : String) (d : Dom) : Dom :=
  (setHtmlDom y x s d).getD d

/-- Content of the first cell of a row with id `y-x`. -/
def htmlRow (y x : Nat) : List Cell → Option String
  | [] => none
  | c :: cs => if c.y = y ∧ c.x = x then some c.html else htmlRow y x cs

/-- Content of the first cell of a table body with id `y-x`. -/
def htmlBody (y x : Nat) : List (List Cell) → Option String
  | [] => none
  | r :: rs =>
    match htmlRow y x r with
    | some s => some s
    | none => htmlBody y x rs

/-- What the page displays in the element `#y-x` (the first one in document
order), `none` when there is no such element. -/
def displayed (y x : Nat) : Dom → Option String
  | [] => none
  | none :: ts => displayed y x ts
  | some t :: ts =>
    match htmlBody y x t.body with
    | some s => some s
    | none => displayed y x ts

/-! ## fillTable (lines 83-118) -/

/-- What the outside world supplies during one run of `setupAndStart`. -/
structure World where
  /-- response to the listing request made by `setupAndStart` itself -/
  listSetup : Except JsError (List CatEntry)
  /-- draws of the shuffle of that listing -/
  drawsSetup : Draws
  /-- response to the listing request made inside `fillTable` -/
  listFill : Except JsError (List CatEntry)
  /-- draws of the shuffle of that listing -/
  drawsFill : Draws
  /-- response to the `k`-th detail request of `fillTable`, asked for id `id` -/
  detail : (k : Nat) → (id : Nat) → Except JsError Category
  /-- draws of the shuffle of the clues of the `k`-th fetched category -/
  drawsClues : (k : Nat) → Draws

/-- The loop `for (let id of catArr)` of `fillTable`, at its `k`-th iteration:
fetch the category, push its shuffled clues on `clues`, append its header. -/
def fillCategories (w : World) : Nat → List Nat → Game → Except JsError Game
  | _, [], g => .ok g
  | k, id :: rest, g =>
    match getCategory (w.detail k id) with
    | .error e => .error e
    | .ok category =>
      fillCategories w (k + 1) rest
        ⟨g.gameTable, g.clues ++ [shuffle (w.drawsClues k) category.clues],
          appendHeader category.title g.dom⟩

/-- The statement `gameTable[x].push(null)`; it throws when `gameTable[x]` is
undefined. -/
def pushNull (x : Nat) (t : List (List CellState)) : Except JsError (List (List CellState)) :=
  match t[x]? with
  | none => .error .typeError
  | some row => .ok (t.set x (row ++ [none]))

/-- The inner loop `for (let y = 0; y < NUM_CATEGORIES; y++)` of `fillTable` for
row `x`, with `n` iterations left, acting on `gameTable` and on `$row`. -/
def fillRow (x : Nat) :
    Nat → Nat → List (List CellState) × List Cell →
      Except JsError (List (List CellState) × List Cell)
  | 0, _, s => .ok s
  | n + 1, y, (t, row) =>
    match pushNull x t with
    | .error e => .error e
    | .ok t' => fillRow x n (y + 1) (t', row ++ [⟨y, x, "?"⟩])

/-- The outer loop `for (let x = 0; x < NUM_CATEGORIES - 1; x++)` of `fillTable`,
with `n` iterations left: push a new empty row on `gameTable`, run the inner
loop, append the finished `tr` to the page. -/
def fillRows : Nat → Nat → Game → Except JsError Game
  | 0, _, g => .ok g
  | n + 1, x, g =>
    match fillRow x NUM_CATEGORIES 0 (g.gameTable ++ [[]], []) with
    | .error e => .error e
    | .ok (t, row) => fillRows n (x + 1) ⟨t, g.clues, appendRow row g.dom⟩

/-- The function `fillTable()`. -/
def fillTable (w : World) (g : Game) : Except JsError Game :=
  let g1 : Game := ⟨g.gameTable, g.clues, prependTable g.dom⟩
  match getCategoryIds w.listFill w.drawsFill with
  | .error e => .error e
  | .ok catArr =>
    match fillCategories w 0 catArr g1 with
    | .error e => .error e
    | .ok g2 => fillRows (NUM_CATEGORIES - 1) 0 g2

/-! ## handleClick (lines 128-140) -/

/-- The function `handleClick(element)` for an element with id `y-x`. -/
def handleClick (y x : Nat) (g : Game) : Except JsError Game :=
  match g.gameTable[x]? with
  | none => .error .typeError
  | some row =>
    match row[y]? with
    | some none =>
      match g.clues[y]? with
      | none => .error .typeError
      | some cat =>
        match cat[x]? with
        | none => .error .typeError
        | some clue =>
          .ok ⟨g.gameTable.set x (row.set y (some .question)), g.clues,
            setHtml y x clue.question g.dom⟩
    | some (some .question) =>
      match g.clues[y]? with
      | none => .error .typeError
      | some cat =>
        match cat[x]? with
        | none => .error .typeError
        | some clue =>
          .ok ⟨g.gameTable.set x (row.set y (some .answer)), g.clues,
            setHtml y x clue.answer g.dom⟩
    | _ => .ok g

/-! ## setupAndStart, clearTable and the start button (lines 166-185) -/

/-- The function `setupAndStart()`: the ids it fetches itself are not used. -/
def setupAndStart (w : World) (g : Game) : Except JsError Game :=
  match getCategoryIds w.listSetup w.drawsSetup with
  | .error e => .error e
  | .ok _ => fillTable w g

/-- The inner loop of `clearTable` on one row: `gameTable[i][j] = null` for
every `j` below the row length. -/
def clearRow (row : List CellState) : List CellState :=
  (List.range row.length).foldl (fun r j => r.set j none) row

/-- The body of the outer loop of `clearTable` for row `i`. -/
def clearRowAt (i : Nat) (t : List (List CellState)) : List (List CellState) :=
  match t[i]? with
  | some row => t.set i (clearRow row)
  | none => t

/-- The function `clearTable()`: the inner loop is run on every row `i` below
`gameTable.length`. -/
def clearTable (t : List (List CellState)) : List (List CellState) :=
  (List.range t.length).foldl (fun acc i => clearRowAt i acc) t

/-- The click handler of the start button. -/
def startClick (w : World) (g : Game) : Except JsError Game :=
  setupAndStart w ⟨clearTable g.gameTable, g.clues, emptyJeopardy g.dom⟩

/-! ## Observations used to state the properties -/

/-- The value `gameTable[x][y]` when both indices are in bounds. -/
def cellAt (t : List (List CellState)) (y x : Nat) : Option CellState :=
  match t[x]? with
  | none => none
  | some row => row[y]?

/-- The clue `clues[y][x]` when both indices are in bounds. -/
def clueAt (cl : List (List Clue)) (y x : Nat) : Option Clue :=
  match cl[y]? with
  | none => none
  | some cat => cat[x]?

/-- A sequence of click events handled one after the other; `(y, x)` is a click
on the element with id `y-x`.  A throwing handler ends the run. -/
def runClicks : List (Nat × Nat) → Game → Except JsError Game
  | [], g => .ok g
  | (y, x) :: rest, g =>
    match handleClick y x g with
    | .error e => .error e
    | .ok g' => runClicks rest g'

/-- The reveal state the transition table gives a hidden cell after `k` clicks. -/
def stateAfter : Nat → CellState
  | 0 => none
  | 1 => some .question
  | _ + 2 => some .answer

/-- One step of the transition table of the reveal state machine. -/
def advance : CellState → CellState
  | none => some .question
  | some .question => some .answer
  | some .answer => some .answer

/-- The ids of the first `NUM_CATEGORIES` entries of the shuffled listing, in
order. -/
def chosenIds (draw : Draws) (data : List CatEntry) : List Nat :=
  ((shuffle draw data).take NUM_CATEGORIES).map CatEntry.id

/-! ## Concrete inputs -/

/-- The draws in which every step picks `j = i`, so that no swap moves anything. -/
def lastDraws : Draws := fun i => Fin.last i

/-- A listing of `n` entries with ids `base, base + 1, ...`. -/
def sampleListing (base n : Nat) : List CatEntry :=
  (List.range n).map fun i => ⟨base + i, "listed"⟩

/-- A category named `tag` with five clues. -/
def sampleCategory (tag : String) : Category :=
  ⟨tag, [⟨tag ++ " q0", tag ++ " a0"⟩, ⟨tag ++ " q1", tag ++ " a1"⟩,
    ⟨tag ++ " q2", tag ++ " a2"⟩, ⟨tag ++ " q3", tag ++ " a3"⟩, ⟨tag ++ " q4", tag ++ " a4"⟩]⟩

/-- A service that lists eight categories and answers every detail request with
`sampleCategory tag`, together with draws that leave every array in place. -/
def sampleWorld (tag : String) (base : Nat) : World :=
  ⟨.ok (sampleListing base 8), lastDraws, .ok (sampleListing base 8), lastDraws,
    fun _ _ => .ok (sampleCategory tag), fun _ => lastDraws⟩

/-- The grid rows `fillTable` appends to the page: row `x` holds the cells
`0-x` to `5-x`, each showing `?`. -/
def freshBody : List (List Cell) :=
  (List.range 5).map fun x => (List.range 6).map fun y => ⟨y, x, "?"⟩

/-- A board of one row and two columns, all hidden, with its two clues and its
page table. -/
def sampleGame : Game :=
  ⟨[[none, none]], [[⟨"q0", "a0"⟩], [⟨"q1", "a1"⟩]],
    [some ⟨["A", "B"], [[⟨0, 0, "?"⟩, ⟨1, 0, "?"⟩]]⟩]⟩

/-- A first game: the start button is clicked on the freshly loaded page. -/
def firstBuild : Except JsError Game :=
  startClick (sampleWorld "old" 0) Game.initial

/-- A restart: the start button is clicked again once the first build is done,
and the service now answers with other categories. -/
def secondBuild : Except JsError Game :=
  match firstBuild with
  | .error e => .error e
  | .ok g => startClick (sampleWorld "new" 10) g

/-- A click on the cell `0-0` of the restarted board. -/
def clickAfterRestart : Except JsError Game :=
  match secondBuild with
  | .error e => .error e
  | .ok g => handleClick 0 0 g

/-! ## shuffle is a permutation, and every permutation comes from one choice sequence -/

theorem swap_of_lt {α : Type} (a : List α) {i j : Nat} (hi : i < a.length) (hj : j < a.length) :
    swap a i j = (a.set i a[j]).set j a[i] := by
  simp [swap, List.getElem?_eq_getElem hi, List.getElem?_eq_getElem hj]

theorem swap_length {α : Type} (a : List α) (i j : Nat) : (swap a i j).length = a.length := by
  unfold swap
  split <;> simp

theorem swap_getElem?_of_ne {α : Type} (a : List α) {i j k : Nat} (hi : k ≠ i) (hj : k ≠ j) :
    (swap a i j)[k]? = a[k]? := by
  unfold swap
  split
  · rw [List.getElem?_set_ne (Ne.symm hj), List.getElem?_set_ne (Ne.symm hi)]
  · rfl

theorem swap_getElem?_left {α : Type} (a : List α) {i j : Nat} (hi : i < a.length) (hj : j < a.length) :
    (swap a i j)[i]? = a[j]? := by
  rw [swap_of_lt a hi hj, List.getElem?_set]
  by_cases h : j = i
  · subst h; simp [hj]
  · rw [if_neg h, List.getElem?_set_self hi, List.getElem?_eq_getElem hj]

theorem swap_perm {α : Type} (a : List α) (i j : Nat) : (swap a i j).Perm a := by
  classical
  by_cases hi : i < a.length
  · by_cases hj : j < a.length
    · rw [swap_of_lt a hi hj, List.perm_iff_count]
      intro b
      have hj' : j < (a.set i a[j]).length := by simpa using hj
      have hget : (a.set i a[j])[j] = a[j] := by
        rw [List.getElem_set]; split <;> rfl
      rw [List.count_set _ _ _ _ hj', List.count_set _ _ _ _ hi, hget]
      have hle : (if a[i] == b then 1 else 0) ≤ a.count b := by
        split
        · rename_i h
          have hb : a[i] = b := by simpa using h
          exact List.count_pos_iff.mpr (hb ▸ List.getElem_mem hi)
        · exact Nat.zero_le _
      omega
    · have : a[j]? = none := List.getElem?_eq_none (Nat.le_of_not_lt hj)
      simp [swap, this]
  · have : a[i]? = none := List.getElem?_eq_none (Nat.le_of_not_lt hi)
    simp [swap, this]

theorem shuffleFrom_perm {α : Type} (draw : Draws) (i : Nat) (a : List α) :
    (shuffleFrom draw i a).Perm a := by
  induction i generalizing a with
  | zero => exact List.Perm.refl a
  | succ i ih => exact (ih _).trans (swap_perm a _ _)

theorem shuffleFrom_getElem?_of_gt {α : Type} (draw : Draws) (i : Nat) (a : List α) {k : Nat}
    (hk : i < k) : (shuffleFrom draw i a)[k]? = a[k]? := by
  induction i generalizing a with
  | zero => rfl
  | succ i ih =>
    have hd : (draw (i + 1)).val < i + 2 := (draw (i + 1)).isLt
    rw [shuffleFrom, ih _ (by omega), swap_getElem?_of_ne a (by omega) (by omega)]

theorem shuffleFrom_getElem?_top {α : Type} (draw : Draws) (i : Nat) (a : List α)
    (hi : i + 1 < a.length) :
    (shuffleFrom draw (i + 1) a)[i + 1]? = a[(draw (i + 1)).val]? := by
  have hd : (draw (i + 1)).val < i + 2 := (draw (i + 1)).isLt
  rw [shuffleFrom, shuffleFrom_getElem?_of_gt draw i _ (Nat.lt_succ_self i),
    swap_getElem?_left a hi (by omega)]

theorem shuffleFrom_congr {α : Type} (d d' : Draws) (i : Nat) (a : List α)
    (h : ∀ k, k ≤ i → d k = d' k) : shuffleFrom d i a = shuffleFrom d' i a := by
  induction i generalizing a with
  | zero => rfl
  | succ i ih =>
    rw [shuffleFrom, shuffleFrom, h (i + 1) (Nat.le_refl _)]
    exact ih _ (fun k hk => h k (by omega))

theorem getElem?_inj_of_nodup {α : Type} {a : List α} (hnd : a.Nodup) {m n : Nat}
    (hm : m < a.length) (h : a[m]? = a[n]?) : m = n := by
  have hn : n < a.length := by
    by_contra hcon
    rw [List.getElem?_eq_getElem hm, List.getElem?_eq_none (Nat.le_of_not_lt hcon)] at h
    exact Option.noConfusion h
  rw [List.getElem?_eq_getElem hm, List.getElem?_eq_getElem hn] at h
  exact (hnd.getElem_inj_iff).mp (Option.some.inj h)

theorem shuffleFrom_inj {α : Type} (d d' : Draws) (i : Nat) (a : List α) (hnd : a.Nodup)
    (hi : i < a.length) (h : shuffleFrom d i a = shuffleFrom d' i a) :
    ∀ k, k ≤ i → d k = d' k := by
  induction i generalizing a with
  | zero =>
    intro k hk
    obtain rfl : k = 0 := by omega
    exact Fin.ext (by have := (d 0).isLt; have := (d' 0).isLt; omega)
  | succ i ih =>
    have h1 := shuffleFrom_getElem?_top d i a hi
    have h2 := shuffleFrom_getElem?_top d' i a hi
    rw [h] at h1
    have hlt : (d (i + 1)).val < a.length := by
      have := (d (i + 1)).isLt
      omega
    have hval : (d (i + 1)).val = (d' (i + 1)).val :=
      getElem?_inj_of_nodup hnd hlt (h1.symm.trans h2)
    have htop : d (i + 1) = d' (i + 1) := Fin.ext hval
    rw [shuffleFrom, shuffleFrom, ← htop] at h
    have hnd' : (swap a (i + 1) (d (i + 1)).val).Nodup :=
      (swap_perm a _ _).nodup_iff.mpr hnd
    have hi' : i < (swap a (i + 1) (d (i + 1)).val).length := by
      rw [swap_length]; omega
    intro k hk
    by_cases hk' : k = i + 1
    · subst hk'; exact htop
    · exact ih _ hnd' hi' h k (by omega)

theorem exists_source_index {α : Type} {a p : List α} {i : Nat} (hnd : p.Nodup) (hp : p.Perm a)
    (hagree : ∀ k, i < k → p[k]? = a[k]?) (hi : i < p.length) :
    ∃ m, m ≤ i ∧ a[m]? = p[i]? := by
  have hmem : p[i] ∈ a := hp.mem_iff.mp (List.getElem_mem hi)
  obtain ⟨m, hm, hmeq⟩ := List.getElem_of_mem hmem
  refine ⟨m, ?_, ?_⟩
  · by_contra hcon
    have hlt : i < m := by omega
    have h1 : p[m]? = p[i]? := by
      rw [hagree m hlt, List.getElem?_eq_getElem hm, hmeq, List.getElem?_eq_getElem hi]
    have hm' : m < p.length := by rw [hp.length_eq]; exact hm
    have := getElem?_inj_of_nodup hnd hm' h1
    omega
  · rw [List.getElem?_eq_getElem hm, hmeq, List.getElem?_eq_getElem hi]

theorem shuffleFrom_surj {α : Type} (i : Nat) (a p : List α) (hnd : a.Nodup) (hi : i < a.length)
    (hp : p.Perm a) (hagree : ∀ k, i < k → p[k]? = a[k]?) :
    ∃ d : Draws, shuffleFrom d i a = p := by
  induction i generalizing a with
  | zero =>
    refine ⟨fun k => Fin.last k, ?_⟩
    have hpn : p.Nodup := hp.nodup_iff.mpr hnd
    obtain ⟨m, hm, hmeq⟩ := exists_source_index hpn hp hagree (by rw [hp.length_eq]; exact hi)
    obtain rfl : m = 0 := by omega
    apply List.ext_getElem?
    intro k
    cases k with
    | zero => exact hmeq
    | succ k => exact (hagree (k + 1) (by omega)).symm
  | succ i ih =>
    have hpn : p.Nodup := hp.nodup_iff.mpr hnd
    obtain ⟨m, hm, hmeq⟩ := exists_source_index hpn hp hagree (by rw [hp.length_eq]; exact hi)
    have hnd' : (swap a (i + 1) m).Nodup := (swap_perm a _ _).nodup_iff.mpr hnd
    have hi' : i < (swap a (i + 1) m).length := by rw [swap_length]; omega
    have hagree' : ∀ k, i < k → p[k]? = (swap a (i + 1) m)[k]? := by
      intro k hk
      by_cases hk' : k = i + 1
      · subst hk'
        rw [swap_getElem?_left a hi (by omega), hmeq]
      · rw [swap_getElem?_of_ne a hk' (by omega), hagree k (by omega)]
    obtain ⟨d', hd'⟩ := ih (swap a (i + 1) m) hnd' hi' (hp.trans (swap_perm a _ _).symm) hagree'
    refine ⟨Function.update d' (i + 1) ⟨m, by omega⟩, ?_⟩
    have hcongr : ∀ k, k ≤ i → Function.update d' (i + 1) ⟨m, by omega⟩ k = d' k :=
      fun k hk => Function.update_noteq (by omega) _ _
    rw [shuffleFrom, Function.update_same, shuffleFrom_congr _ d' i _ hcongr]
    exact hd'

theorem shuffle_perm {α : Type} (d : Draws) (a : List α) : (shuffle d a).Perm a :=
  shuffleFrom_perm d _ a

/-- C4: for every input array and every sequence of draws (the draw at step `i`
is an index in `0..i`), `shuffle` returns a permutation of its input: same
length and same multiset of elements. -/
theorem shuffle_is_permutation {α : Type} (d : Draws) (a : List α) :
    (shuffle d a).Perm a ∧ (shuffle d a).length = a.length ∧
      (↑(shuffle d a) : Multiset α) = ↑a :=
  ⟨shuffle_perm d a, (shuffle_perm d a).length_eq, Multiset.coe_eq_coe.mpr (shuffle_perm d a)⟩

/-- C8: on an array of pairwise distinct elements the map from choice sequences
to outputs of `shuffle` is a bijection onto the permutations of the input: every
output is a permutation, two choice sequences with the same output agree at every
step `i < n`, and every permutation is the output of a choice sequence, which is
the only one up to the steps the loop never reaches. -/
theorem shuffle_unbiased {α : Type} (a : List α) (hnd : a.Nodup) :
    (∀ d : Draws, (shuffle d a).Perm a) ∧
    (∀ d d' : Draws, shuffle d a = shuffle d' a → ∀ i, i < a.length → d i = d' i) ∧
    (∀ p : List α, p.Perm a →
      ∃ d : Draws, shuffle d a = p ∧
        ∀ d' : Draws, shuffle d' a = p → ∀ i, i < a.length → d' i = d i) := by
  have hinj : ∀ d d' : Draws, shuffle d a = shuffle d' a →
      ∀ i, i < a.length → d i = d' i := by
    intro d d' h i hi
    exact shuffleFrom_inj d d' (a.length - 1) a hnd (by omega) h i (by omega)
  refine ⟨fun d => shuffle_perm d a, hinj, ?_⟩
  intro p hp
  have hex : ∃ d : Draws, shuffle d a = p := by
    by_cases hlen : a.length = 0
    · have ha : a = [] := List.length_eq_zero.mp hlen
      subst ha
      exact ⟨fun k => Fin.last k, (List.Perm.eq_nil hp).symm⟩
    · apply shuffleFrom_surj (a.length - 1) a p hnd (by omega) hp
      intro k hk
      have hpl := hp.length_eq
      rw [List.getElem?_eq_none (by omega), List.getElem?_eq_none (by omega)]
  obtain ⟨d, hd⟩ := hex
  exact ⟨d, hd, fun d' hd' i hi => hinj d' d (hd'.trans hd.symm) i hi⟩

/-- Witness of C8 on the array `[1, 2, 3]`. -/
theorem shuffle_unbiased_witness :
    [1, 2, 3].Nodup ∧
    ((∀ d : Draws, (shuffle d [1, 2, 3]).Perm [1, 2, 3]) ∧
    (∀ d d' : Draws, shuffle d [1, 2, 3] = shuffle d' [1, 2, 3] →
      ∀ i, i < [1, 2, 3].length → d i = d' i) ∧
    (∀ p : List Nat, p.Perm [1, 2, 3] →
      ∃ d : Draws, shuffle d [1, 2, 3] = p ∧
        ∀ d' : Draws, shuffle d' [1, 2, 3] = p → ∀ i, i < [1, 2, 3].length → d' i = d i)) :=
  ⟨by decide, shuffle_unbiased [1, 2, 3] (by decide)⟩

/-! ## getCategoryIds -/

theorem idsLoop_of_le (num : Nat) (catArr : List CatEntry) (hlen : num ≤ catArr.length) :
    ∀ (n i : Nat) (categories : List Nat), n + i = num + 1 → i ≤ num →
      categories = (catArr.take i).map CatEntry.id →
      idsLoop num catArr n i categories = .ok ((catArr.take num).map CatEntry.id) := by
  intro n
  induction n with
  | zero => intro i categories h1 h2 _; omega
  | succ n ih =>
    intro i categories h1 h2 hc
    have hclen : categories.length = i := by
      rw [hc, List.length_map, List.length_take]; omega
    by_cases hi : i = num
    · rw [idsLoop, if_pos (hclen.trans hi), hc, hi]
    · have hlt : i < catArr.length := by omega
      rw [idsLoop, if_neg (by omega), List.getElem?_eq_getElem hlt]
      apply ih (i + 1) _ (by omega) (by omega)
      rw [hc, List.take_succ, List.getElem?_eq_getElem hlt]
      simp only [Option.toList, List.map_append, List.map_cons, List.map_nil]

theorem idsLoop_of_lt (num : Nat) (catArr : List CatEntry) (hlen : catArr.length < num) :
    ∀ (n i : Nat) (categories : List Nat), n + i = num + 1 → i ≤ catArr.length →
      categories.length = i →
      idsLoop num catArr n i categories = .error .typeError := by
  intro n
  induction n with
  | zero => intro i categories h1 h2 _; omega
  | succ n ih =>
    intro i categories h1 h2 hc
    rw [idsLoop, if_neg (by omega)]
    by_cases hi : i = catArr.length
    · rw [List.getElem?_eq_none (by omega)]
    · have hlt : i < catArr.length := by omega
      rw [List.getElem?_eq_getElem hlt]
      exact ih (i + 1) _ (by omega) (by omega) (by simp [hc])

theorem getCategoryIds_ok (data : List CatEntry) (d : Draws)
    (h : NUM_CATEGORIES ≤ data.length) :
    getCategoryIds (.ok data) d =
      .ok (((shuffle d data).take NUM_CATEGORIES).map CatEntry.id) := by
  have hlen : NUM_CATEGORIES ≤ (shuffle d data).length := by
    rw [(shuffle_perm d data).length_eq]; exact h
  exact idsLoop_of_le NUM_CATEGORIES _ hlen _ 0 [] rfl (Nat.zero_le _) rfl

/-- C9 (as the code behaves): when the listing has fewer than `NUM_CATEGORIES`
entries, `getCategoryIds` throws a `TypeError` for every outcome of the shuffle,
and so do `setupAndStart` and the start handler, before `fillTable` is entered. -/
theorem getCategoryIds_short_raises (data : List CatEntry) (d : Draws)
    (h : data.length < NUM_CATEGORIES) :
    getCategoryIds (.ok data) d = .error .typeError ∧
    ∀ (w : World) (g : Game), w.listSetup = .ok data →
      setupAndStart w g = .error .typeError ∧ startClick w g = .error .typeError := by
  have hlen : (shuffle d data).length < NUM_CATEGORIES := by
    rw [(shuffle_perm d data).length_eq]; exact h
  have key : ∀ d' : Draws, getCategoryIds (.ok data) d' = .error .typeError := by
    intro d'
    have hlen' : (shuffle d' data).length < NUM_CATEGORIES := by
      rw [(shuffle_perm d' data).length_eq]; exact h
    exact idsLoop_of_lt NUM_CATEGORIES _ hlen' _ 0 [] rfl (Nat.zero_le _) rfl
  refine ⟨key d, ?_⟩
  intro w g hw
  have hs : setupAndStart w g = .error .typeError := by
    unfold setupAndStart
    rw [hw, key]
  have hc : startClick w g = .error .typeError := by
    unfold startClick setupAndStart
    rw [hw, key]
  exact ⟨hs, hc⟩

/-! ## clearTable -/

theorem foldl_range_set_getElem? {α : Type} (v : α) (row : List α) (n k : Nat) :
    ((List.range n).foldl (fun r j => r.set j v) row)[k]? =
      if k < n then row[k]?.map (fun _ => v) else row[k]? := by
  induction n with
  | zero => simp
  | succ n ih =>
    rw [List.range_succ, List.foldl_append, List.foldl_cons, List.foldl_nil,
      List.getElem?_set', ih]
    by_cases h1 : n = k
    · subst h1; simp; rfl
    · by_cases h2 : k < n
      · simp [h1, h2, Nat.lt_succ_of_lt h2]
      · have h3 : ¬ k < n + 1 := by omega
        simp [h1, h2, h3]

theorem clearRow_eq (row : List CellState) :
    clearRow row = List.replicate row.length none := by
  apply List.ext_getElem?
  intro k
  rw [clearRow, foldl_range_set_getElem?, List.getElem?_replicate]
  split
  · rename_i h
    rw [List.getElem?_eq_getElem h]; rfl
  · rename_i h
    rw [List.getElem?_eq_none (by omega)]

theorem foldl_clearRowAt_getElem? (t : List (List CellState)) (n k : Nat) :
    ((List.range n).foldl (fun acc i => clearRowAt i acc) t)[k]? =
      if k < n then t[k]?.map clearRow else t[k]? := by
  induction n generalizing k with
  | zero => simp
  | succ n ih =>
    rw [List.range_succ, List.foldl_append, List.foldl_cons, List.foldl_nil]
    have hn := ih n
    have hk := ih k
    generalize (List.range n).foldl (fun acc i => clearRowAt i acc) t = acc at hn hk ⊢
    simp only [Nat.lt_irrefl, if_false] at hn
    unfold clearRowAt
    by_cases h1 : n = k
    · subst h1
      rw [hn]
      cases ht : t[n]? with
      | none => simp [hn, ht]
      | some r =>
        have hlt : n < acc.length := by
          by_contra hcon
          rw [List.getElem?_eq_none (by omega)] at hn
          rw [ht] at hn
          exact Option.noConfusion hn
        simp [List.getElem?_set_self hlt]
    · have h2 : (match acc[n]? with
        | some row => acc.set n (clearRow row)
        | none => acc)[k]? = acc[k]? := by
        split
        · exact List.getElem?_set_ne h1
        · rfl
      rw [h2, hk]
      by_cases h3 : k < n
      · simp [h3, Nat.lt_succ_of_lt h3]
      · have h4 : ¬ k < n + 1 := by omega
        simp [h3, h4]

theorem clearTable_eq (t : List (List CellState)) :
    clearTable t = t.map (fun row => List.replicate row.length none) := by
  apply List.ext_getElem?
  intro k
  rw [clearTable, foldl_clearRowAt_getElem?, List.getElem?_map]
  split
  · cases t[k]? with
    | none => rfl
    | some r => simp [clearRow_eq]
  · rename_i h
    rw [List.getElem?_eq_none (by omega)]
    rfl

/-- C3: for every `gameTable` (any number of rows, any row lengths, any cell
states), `clearTable` turns every row into a row of the same length whose cells
are all `null`: the number of rows and the length of each row are kept, and every
cell of the result is hidden. -/
theorem clearTable_all_hidden (t : List (List CellState)) :
    clearTable t = t.map (fun row => List.replicate row.length none) ∧
    (clearTable t).length = t.length ∧
    (clearTable t).map List.length = t.map List.length ∧
    (∀ row, row ∈ clearTable t → ∀ c, c ∈ row → c = none) := by
  rw [clearTable_eq]
  refine ⟨rfl, by simp, by simp, ?_⟩
  intro row hrow c hc
  obtain ⟨r, _, rfl⟩ := List.mem_map.mp hrow
  exact List.eq_of_mem_replicate hc

/-! ## handleClick and sequences of clicks -/

theorem setHtmlRow_spec (y x : Nat) (s : String) (r : List Cell) :
    (htmlRow y x r = none ∧ setHtmlRow y x s r = none) ∨
    (∃ r', (htmlRow y x r).isSome ∧ setHtmlRow y x s r = some r' ∧
      htmlRow y x r' = some s) := by
  induction r with
  | nil => exact Or.inl ⟨rfl, rfl⟩
  | cons c cs ih =>
    by_cases h : c.y = y ∧ c.x = x
    · refine Or.inr ⟨⟨c.y, c.x, s⟩ :: cs, ?_, ?_, ?_⟩
      · simp [htmlRow, h]
      · simp [setHtmlRow, h]
      · simp [htmlRow, h]
    · rcases ih with ⟨h1, h2⟩ | ⟨r', h1, h2, h3⟩
      · exact Or.inl ⟨by simp [htmlRow, h, h1], by simp [setHtmlRow, h, h2]⟩
      · refine Or.inr ⟨c :: r', ?_, ?_, ?_⟩
        · simpa [htmlRow, h] using h1
        · simp [setHtmlRow, h, h2]
        · simp [htmlRow, h, h3]

theorem setHtmlBody_spec (y x : Nat) (s : String) (b : List (List Cell)) :
    (htmlBody y x b = none ∧ setHtmlBody y x s b = none) ∨
    (∃ b', (htmlBody y x b).isSome ∧ setHtmlBody y x s b = some b' ∧
      htmlBody y x b' = some s) := by
  induction b with
  | nil => exact Or.inl ⟨rfl, rfl⟩
  | cons r rs ih =>
    rcases setHtmlRow_spec y x s r with ⟨h1, h2⟩ | ⟨r', h1, h2, h3⟩
    · rcases ih with ⟨g1, g2⟩ | ⟨b', g1, g2, g3⟩
      · exact Or.inl ⟨by simp [htmlBody, h1, g1], by simp [setHtmlBody, h2, g2]⟩
      · refine Or.inr ⟨r :: b', ?_, ?_, ?_⟩
        · simpa [htmlBody, h1] using g1
        · simp [setHtmlBody, h2, g2]
        · simp [htmlBody, h1, g3]
    · obtain ⟨old, hold⟩ := Option.isSome_iff_exists.mp h1
      refine Or.inr ⟨r' :: rs, ?_, ?_, ?_⟩
      · simp [htmlBody, hold]
      · simp [setHtmlBody, h2]
      · simp [htmlBody, h3]

theorem setHtmlDom_spec (y x : Nat) (s : String) (d : Dom) :
    (displayed y x d = none ∧ setHtmlDom y x s d = none) ∨
    (∃ d', (displayed y x d).isSome ∧ setHtmlDom y x s d = some d' ∧
      displayed y x d' = some s) := by
  induction d with
  | nil => exact Or.inl ⟨rfl, rfl⟩
  | cons t ts ih =>
    cases t with
    | none =>
      rcases ih with ⟨g1, g2⟩ | ⟨d', g1, g2, g3⟩
      · exact Or.inl ⟨by simp [displayed, g1], by simp [setHtmlDom, g2]⟩
      · refine Or.inr ⟨none :: d', ?_, ?_, ?_⟩
        · simpa [displayed] using g1
        · simp [setHtmlDom, g2]
        · simp [displayed, g3]
    | some t =>
      rcases setHtmlBody_spec y x s t.body with ⟨h1, h2⟩ | ⟨b', h1, h2, h3⟩
      · rcases ih with ⟨g1, g2⟩ | ⟨d', g1, g2, g3⟩
        · exact Or.inl ⟨by simp [displayed, h1, g1], by simp [setHtmlDom, h2, g2]⟩
        · refine Or.inr ⟨some t :: d', ?_, ?_, ?_⟩
          · simpa [displayed, h1] using g1
          · simp [setHtmlDom, h2, g2]
          · simp [displayed, h1, g3]
      · obtain ⟨old, hold⟩ := Option.isSome_iff_exists.mp h1
        refine Or.inr ⟨some ⟨t.headerRow, b'⟩ :: ts, ?_, ?_, ?_⟩
        · simp [displayed, hold]
        · simp [setHtmlDom, h2]
        · simp [displayed, h3]

theorem displayed_setHtml (y x : Nat) (s : String) (d : Dom)
    (h : (displayed y x d).isSome) : displayed y x (setHtml y x s d) = some s := by
  rcases setHtmlDom_spec y x s d with ⟨h1, _⟩ | ⟨d', _, h2, h3⟩
  · rw [h1] at h; exact absurd h (by simp)
  · rw [setHtml, h2]; exact h3

theorem handleClick_hidden (g : Game) (y x : Nat) (row : List CellState)
    (cat : List Clue) (clue : Clue)
    (hrow : g.gameTable[x]? = some row) (hcell : row[y]? = some none)
    (hcat : g.clues[y]? = some cat) (hclue : cat[x]? = some clue) :
    handleClick y x g =
      .ok ⟨g.gameTable.set x (row.set y (some .question)), g.clues,
        setHtml y x clue.question g.dom⟩ := by
  simp [handleClick, hrow, hcell, hcat, hclue]

theorem handleClick_question (g : Game) (y x : Nat) (row : List CellState)
    (cat : List Clue) (clue : Clue)
    (hrow : g.gameTable[x]? = some row) (hcell : row[y]? = some (some .question))
    (hcat : g.clues[y]? = some cat) (hclue : cat[x]? = some clue) :
    handleClick y x g =
      .ok ⟨g.gameTable.set x (row.set y (some .answer)), g.clues,
        setHtml y x clue.answer g.dom⟩ := by
  simp [handleClick, hrow, hcell, hcat, hclue]

theorem handleClick_answer (g : Game) (y x : Nat) (row : List CellState)
    (hrow : g.gameTable[x]? = some row) (hcell : row[y]? = some (some .answer)) :
    handleClick y x g = .ok g := by
  simp [handleClick, hrow, hcell]

theorem lt_length_of_getElem?_eq_some {α : Type} {l : List α} {i : Nat} {v : α}
    (h : l[i]? = some v) : i < l.length := by
  by_contra hcon
  rw [List.getElem?_eq_none (by omega)] at h
  exact Option.noConfusion h

theorem cellAt_set (t : List (List CellState)) (row : List CellState) (y x : Nat)
    (v : CellState) (hrow : t[x]? = some row) (hy : y < row.length) (y' x' : Nat) :
    cellAt (t.set x (row.set y v)) y' x' =
      if y' = y ∧ x' = x then some v else cellAt t y' x' := by
  have hx : x < t.length := lt_length_of_getElem?_eq_some hrow
  unfold cellAt
  by_cases hxx : x' = x
  · subst hxx
    rw [List.getElem?_set_self hx, hrow]
    by_cases hyy : y' = y
    · subst hyy
      simp [List.getElem?_set_self hy]
    · simp [hyy, List.getElem?_set_ne (Ne.symm hyy)]
  · rw [List.getElem?_set_ne (Ne.symm hxx)]
    simp [hxx]

theorem handleClick_cellAt (g : Game) (y x : Nat)
    (hcell : (cellAt g.gameTable y x).isSome) (hclue : (clueAt g.clues y x).isSome) :
    ∃ g', handleClick y x g = .ok g' ∧ g'.clues = g.clues ∧
      ∀ y' x', cellAt g'.gameTable y' x' =
        if y' = y ∧ x' = x then (cellAt g.gameTable y x).map advance
        else cellAt g.gameTable y' x' := by
  obtain ⟨st, hst⟩ := Option.isSome_iff_exists.mp hcell
  obtain ⟨clue, hcl⟩ := Option.isSome_iff_exists.mp hclue
  unfold cellAt at hst
  unfold clueAt at hcl
  cases hrow : g.gameTable[x]? with
  | none => rw [hrow] at hst; exact Option.noConfusion hst
  | some row =>
    rw [hrow] at hst
    cases hcat : g.clues[y]? with
    | none => rw [hcat] at hcl; exact Option.noConfusion hcl
    | some cat =>
      rw [hcat] at hcl
      have hy : y < row.length := lt_length_of_getElem?_eq_some hst
      have hval : cellAt g.gameTable y x = some st := by
        unfold cellAt; rw [hrow]; exact hst
      cases st with
      | none =>
        refine ⟨_, handleClick_hidden g y x row cat clue hrow hst hcat hcl, rfl, ?_⟩
        intro y' x'
        rw [hval]
        exact cellAt_set g.gameTable row y x _ hrow hy y' x'
      | some sh =>
        cases sh with
        | question =>
          refine ⟨_, handleClick_question g y x row cat clue hrow hst hcat hcl, rfl, ?_⟩
          intro y' x'
          rw [hval]
          exact cellAt_set g.gameTable row y x _ hrow hy y' x'
        | answer =>
          refine ⟨g, handleClick_answer g y x row hrow hst, rfl, ?_⟩
          intro y' x'
          split
          · rename_i h
            rw [h.1, h.2, hval]; rfl
          · rfl

theorem runClicks_cellAt (cs : List (Nat × Nat)) (g : Game)
    (hin : ∀ p, p ∈ cs →
      (cellAt g.gameTable p.1 p.2).isSome ∧ (clueAt g.clues p.1 p.2).isSome) :
    ∃ g', runClicks cs g = .ok g' ∧ g'.clues = g.clues ∧
      ∀ y x, cellAt g'.gameTable y x =
        (cellAt g.gameTable y x).map (advance^[cs.count (y, x)]) := by
  induction cs generalizing g with
  | nil => exact ⟨g, rfl, rfl, fun y x => by simp⟩
  | cons p rest ih =>
    obtain ⟨py, px⟩ := p
    obtain ⟨h1, h2⟩ := hin (py, px) (List.mem_cons_self _ _)
    obtain ⟨g1, hg1, hclues, hcells⟩ := handleClick_cellAt g py px h1 h2
    have hin' : ∀ p, p ∈ rest →
        (cellAt g1.gameTable p.1 p.2).isSome ∧ (clueAt g1.clues p.1 p.2).isSome := by
      intro p hp
      obtain ⟨h3, h4⟩ := hin p (List.mem_cons_of_mem _ hp)
      refine ⟨?_, by rw [hclues]; exact h4⟩
      rw [hcells]
      split
      · rename_i h
        simpa using h1
      · exact h3
    obtain ⟨g2, hg2, hclues2, hcells2⟩ := ih g1 hin'
    refine ⟨g2, by simp [runClicks, hg1, hg2], hclues2.trans hclues, ?_⟩
    intro y x
    rw [hcells2, hcells, List.count_cons]
    by_cases h : y = py ∧ x = px
    · obtain ⟨rfl, rfl⟩ := h
      simp [Function.iterate_succ]
    · have hne : ¬ ((py, px) = (y, x)) := by
        intro hcon
        exact h ⟨(Prod.mk.inj hcon).1.symm, (Prod.mk.inj hcon).2.symm⟩
      simp [h, hne]

theorem iterate_advance_none (k : Nat) : advance^[k] none = stateAfter k := by
  have h2 : ∀ k, advance^[k + 2] none = some .answer := by
    intro k
    induction k with
    | zero => rfl
    | succ k ih => rw [Function.iterate_succ_apply', ih]; rfl
  match k with
  | 0 => rfl
  | 1 => rfl
  | k + 2 => exact h2 k

/-- C2: starting from a board whose cells are all hidden, every finite sequence
of clicks on in-bounds cells (whose clues exist) runs to the end, and the final
state of every cell of the board is determined by the number `k` of clicks made
on that cell alone: hidden for `k = 0`, question for `k = 1`, answer for
`k ≥ 2`. -/
theorem runClicks_state_by_count (cs : List (Nat × Nat)) (g : Game)
    (hhidden : ∀ y x st, cellAt g.gameTable y x = some st → st = none)
    (hin : ∀ p, p ∈ cs →
      (cellAt g.gameTable p.1 p.2).isSome ∧ (clueAt g.clues p.1 p.2).isSome) :
    ∃ g', runClicks cs g = .ok g' ∧
      ∀ y x, (cellAt g.gameTable y x).isSome →
        cellAt g'.gameTable y x = some (stateAfter (cs.count (y, x))) := by
  obtain ⟨g', hrun, _, hcells⟩ := runClicks_cellAt cs g hin
  refine ⟨g', hrun, ?_⟩
  intro y x hsome
  obtain ⟨st, hst⟩ := Option.isSome_iff_exists.mp hsome
  have hnone : st = none := hhidden y x st hst
  subst hnone
  rw [hcells, hst, Option.map_some', iterate_advance_none]

/-- C1: one `handleClick` on an in-bounds cell `(y, x)` (category column `y`, clue
row `x`) whose clue `clues[y][x]` exists and whose element is on the page follows
the transition table: a `null` cell becomes `"question"` and the element shows
the question of that clue, a `"question"` cell becomes `"answer"` and the element
shows its answer, an `"answer"` cell leaves the whole state, page included, as
it is. -/
theorem handleClick_transition (g : Game) (y x : Nat) (st : CellState) (clue : Clue)
    (hcell : cellAt g.gameTable y x = some st) (hclue : clueAt g.clues y x = some clue)
    (hdom : (displayed y x g.dom).isSome) :
    ∃ g', handleClick y x g = .ok g' ∧ g'.clues = g.clues ∧
      match st with
      | none =>
        cellAt g'.gameTable y x = some (some .question) ∧
        displayed y x g'.dom = some clue.question
      | some .question =>
        cellAt g'.gameTable y x = some (some .answer) ∧
        displayed y x g'.dom = some clue.answer
      | some .answer => g' = g := by
  unfold cellAt at hcell
  unfold clueAt at hclue
  cases hrow : g.gameTable[x]? with
  | none => rw [hrow] at hcell; exact Option.noConfusion hcell
  | some row =>
    rw [hrow] at hcell
    cases hcat : g.clues[y]? with
    | none => rw [hcat] at hclue; exact Option.noConfusion hclue
    | some cat =>
      rw [hcat] at hclue
      have hy : y < row.length := lt_length_of_getElem?_eq_some hcell
      cases st with
      | none =>
        refine ⟨_, handleClick_hidden g y x row cat clue hrow hcell hcat hclue, rfl, ?_, ?_⟩
        · rw [cellAt_set g.gameTable row y x _ hrow hy]; simp
        · exact displayed_setHtml y x _ _ hdom
      | some sh =>
        cases sh with
        | question =>
          refine ⟨_, handleClick_question g y x row cat clue hrow hcell hcat hclue, rfl, ?_, ?_⟩
          · rw [cellAt_set g.gameTable row y x _ hrow hy]; simp
          · exact displayed_setHtml y x _ _ hdom
        | answer =>
          exact ⟨g, handleClick_answer g y x row hrow hcell, rfl, rfl⟩

/-- Witness of C1: a click on the hidden cell `1-0` of the sample board. -/
theorem handleClick_transition_witness :
    cellAt sampleGame.gameTable 1 0 = some none ∧
    clueAt sampleGame.clues 1 0 = some ⟨"q1", "a1"⟩ ∧
    (displayed 1 0 sampleGame.dom).isSome ∧
    ∃ g', handleClick 1 0 sampleGame = .ok g' ∧ g'.clues = sampleGame.clues ∧
      cellAt g'.gameTable 1 0 = some (some .question) ∧
      displayed 1 0 g'.dom = some "q1" :=
  ⟨rfl, rfl, rfl, handleClick_transition sampleGame 1 0 none ⟨"q1", "a1"⟩ rfl rfl rfl⟩

/-- Witness of C2: three clicks on `0-0` and one on `1-0` of the sample board. -/
theorem runClicks_state_by_count_witness :
    (∀ y x st, cellAt sampleGame.gameTable y x = some st → st = none) ∧
    (∀ p, p ∈ [(0, 0), (1, 0), (0, 0), (0, 0)] →
      (cellAt sampleGame.gameTable p.1 p.2).isSome ∧
        (clueAt sampleGame.clues p.1 p.2).isSome) ∧
    ∃ g', runClicks [(0, 0), (1, 0), (0, 0), (0, 0)] sampleGame = .ok g' ∧
      ∀ y x, (cellAt sampleGame.gameTable y x).isSome →
        cellAt g'.gameTable y x =
          some (stateAfter ([(0, 0), (1, 0), (0, 0), (0, 0)].count (y, x))) :=
  have h1 : ∀ y x st, cellAt sampleGame.gameTable y x = some st → st = none := by
    intro y x st h
    match x, y, h with
    | 0, 0, h => exact (Option.some.inj h).symm
    | 0, 1, h => exact (Option.some.inj h).symm
    | 0, _ + 2, h => exact Option.noConfusion h
    | _ + 1, _, h => exact Option.noConfusion h
  have h2 : ∀ p, p ∈ [(0, 0), (1, 0), (0, 0), (0, 0)] →
      (cellAt sampleGame.gameTable p.1 p.2).isSome ∧
        (clueAt sampleGame.clues p.1 p.2).isSome := by
    intro p hp
    simp only [List.mem_cons, List.mem_singleton, List.mem_nil_iff, or_false] at hp
    rcases hp with rfl | rfl | rfl | rfl <;> exact ⟨rfl, rfl⟩
  ⟨h1, h2, runClicks_state_by_count _ sampleGame h1 h2⟩

/-! ## fillTable -/

theorem fillCategories_spec (w : World) (ids : List Nat) (k : Nat) (g : Game)
    (hok : ∀ j id, ids[j]? = some id → ∃ c, w.detail (k + j) id = .ok c) :
    ∃ (cl : List (List Clue)) (titles : List String),
      fillCategories w k ids g =
        .ok ⟨g.gameTable, g.clues ++ cl,
          g.dom.map (Option.map fun t => ⟨t.headerRow ++ titles, t.body⟩)⟩ ∧
      cl.length = ids.length ∧ titles.length = ids.length ∧
      ∀ j id c, ids[j]? = some id → w.detail (k + j) id = .ok c →
        cl[j]? = some (shuffle (w.drawsClues (k + j)) c.clues) ∧
        titles[j]? = some c.title := by
  induction ids generalizing k g with
  | nil =>
    refine ⟨[], [], ?_, rfl, rfl, ?_⟩
    · obtain ⟨t, c, d⟩ := g
      simp only [fillCategories, List.append_nil]
      congr 2
      induction d with
      | nil => rfl
      | cons a d ih => cases a <;> simp
    · intro j id c h
      simp at h
  | cons id rest ih =>
    obtain ⟨c, hc⟩ := hok 0 id (by simp)
    have hok' : ∀ j id', rest[j]? = some id' → ∃ c, w.detail (k + 1 + j) id' = .ok c := by
      intro j id' h
      have := hok (j + 1) id' (by simpa using h)
      rwa [show k + (j + 1) = k + 1 + j by omega] at this
    obtain ⟨cl, titles, hrun, hl1, hl2, hget⟩ := ih (k + 1)
      ⟨g.gameTable, g.clues ++ [shuffle (w.drawsClues k) (⟨c.title, c.clues⟩ : Category).clues],
        appendHeader (⟨c.title, c.clues⟩ : Category).title g.dom⟩ hok'
    refine ⟨shuffle (w.drawsClues k) c.clues :: cl, c.title :: titles, ?_, by simp [hl1],
      by simp [hl2], ?_⟩
    · rw [fillCategories]
      rw [Nat.add_zero] at hc
      rw [hc]
      simp only [getCategory]
      rw [hrun]
      simp [appendHeader, List.map_map, Function.comp_def, Option.map_map]
    · intro j id' c' h hd
      cases j with
      | zero =>
        simp at h
        subst h
        rw [hc] at hd
        cases hd
        simp
      | succ j =>
        have h' : rest[j]? = some id' := by simpa using h
        rw [show k + (j + 1) = k + 1 + j by omega] at hd ⊢
        simpa using hget j id' c' h' hd

theorem fillRow_spec (x : Nat) (n y : Nat) (t : List (List CellState)) (row : List Cell)
    (r : List CellState) (h : t[x]? = some r) :
    fillRow x n y (t, row) =
      .ok (t.set x (r ++ List.replicate n none),
        row ++ (List.range' y n).map (fun y => (⟨y, x, "?"⟩ : Cell))) := by
  induction n generalizing y t row r with
  | zero =>
    have hx := lt_length_of_getElem?_eq_some h
    have : t.set x r = t := by
      apply List.ext_getElem?
      intro k
      by_cases hk : x = k
      · subst hk; rw [List.getElem?_set_self hx, h]
      · rw [List.getElem?_set_ne hk]
    simp [fillRow, this]
  | succ n ih =>
    have hx := lt_length_of_getElem?_eq_some h
    rw [fillRow]
    simp only [pushNull, h]
    rw [ih (y + 1) _ _ (r ++ [none]) (List.getElem?_set_self hx)]
    simp [List.range'_succ, List.replicate_succ]

theorem fillRows_spec (n x : Nat) (g : Game) (hx : x ≤ g.gameTable.length) :
    ∃ (t : List (List CellState)) (rows : List (List Cell)),
      fillRows n x g =
        .ok ⟨t, g.clues, g.dom.map (Option.map fun tb => ⟨tb.headerRow, tb.body ++ rows⟩)⟩ ∧
      t.length = g.gameTable.length + n ∧ rows.length = n := by
  induction n generalizing x g with
  | zero =>
    refine ⟨g.gameTable, [], ?_, rfl, rfl⟩
    obtain ⟨t, c, d⟩ := g
    simp only [fillRows, List.append_nil]
    congr 2
    induction d with
    | nil => rfl
    | cons a d ih => cases a <;> simp
  | succ n ih =>
    have hlt : x < (g.gameTable ++ [[]]).length := by simp; omega
    obtain ⟨r, hr⟩ : ∃ r, (g.gameTable ++ [[]])[x]? = some r :=
      ⟨_, List.getElem?_eq_getElem hlt⟩
    have hrow := fillRow_spec x NUM_CATEGORIES 0 (g.gameTable ++ [[]]) [] r hr
    obtain ⟨t, rows, hrun, hl1, hl2⟩ := ih (x + 1)
      ⟨(g.gameTable ++ [[]]).set x (r ++ List.replicate NUM_CATEGORIES none), g.clues,
        appendRow ([] ++ (List.range' 0 NUM_CATEGORIES).map (fun y => (⟨y, x, "?"⟩ : Cell)))
          g.dom⟩ (by simp; omega)
    refine ⟨t, ((List.range' 0 NUM_CATEGORIES).map (fun y => (⟨y, x, "?"⟩ : Cell))) :: rows,
      ?_, ?_, by simp [hl2]⟩
    · rw [fillRows, hrow]
      simp only []
      rw [hrun]
      simp [appendRow, List.map_map, Function.comp_def, Option.map_map]
    · rw [hl1]; simp; omega

theorem getCategoryIds_eq_chosenIds (data : List CatEntry) (d : Draws)
    (h : NUM_CATEGORIES ≤ data.length) :
    getCategoryIds (.ok data) d = .ok (chosenIds d data) :=
  getCategoryIds_ok data d h

theorem chosenIds_length (data : List CatEntry) (d : Draws)
    (h : NUM_CATEGORIES ≤ data.length) : (chosenIds d data).length = NUM_CATEGORIES := by
  have := (shuffle_perm d data).length_eq
  simp only [chosenIds, List.length_map, List.length_take]
  omega

theorem chosenIds_nodup (data : List CatEntry) (d : Draws)
    (h : (data.map CatEntry.id).Nodup) : (chosenIds d data).Nodup := by
  have hperm : ((shuffle d data).map CatEntry.id).Perm (data.map CatEntry.id) :=
    (shuffle_perm d data).map _
  have hnd : ((shuffle d data).map CatEntry.id).Nodup := hperm.nodup_iff.mpr h
  rw [chosenIds, List.map_take]
  exact hnd.sublist (List.take_sublist _ _)

theorem fillTable_spec (w : World) (g : Game) (data : List CatEntry)
    (hlist : w.listFill = .ok data) (hlen : NUM_CATEGORIES ≤ data.length)
    (hfetch : ∀ j id, (chosenIds w.drawsFill data)[j]? = some id →
      ∃ c, w.detail j id = .ok c) :
    ∃ (t : List (List CellState)) (cl : List (List Clue)) (titles : List String)
      (rows : List (List Cell)),
      fillTable w g =
        .ok ⟨t, g.clues ++ cl,
          some ⟨titles, rows⟩ ::
            g.dom.map (Option.map fun tb => ⟨tb.headerRow ++ titles, tb.body ++ rows⟩)⟩ ∧
      cl.length = NUM_CATEGORIES ∧ titles.length = NUM_CATEGORIES ∧
      (∀ j id c, (chosenIds w.drawsFill data)[j]? = some id → w.detail j id = .ok c →
        cl[j]? = some (shuffle (w.drawsClues j) c.clues) ∧ titles[j]? = some c.title) ∧
      fillRows (NUM_CATEGORIES - 1) 0 ⟨g.gameTable, g.clues ++ cl,
        some ⟨titles, []⟩ ::
          g.dom.map (Option.map fun tb => ⟨tb.headerRow ++ titles, tb.body⟩)⟩ =
        .ok ⟨t, g.clues ++ cl,
          some ⟨titles, rows⟩ ::
            g.dom.map (Option.map fun tb => ⟨tb.headerRow ++ titles, tb.body ++ rows⟩)⟩ := by
  have hok : ∀ j id, (chosenIds w.drawsFill data)[j]? = some id →
      ∃ c, w.detail (0 + j) id = .ok c := by
    intro j id h
    rw [Nat.zero_add]
    exact hfetch j id h
  obtain ⟨cl, titles, hrun, hl1, hl2, hget⟩ :=
    fillCategories_spec w (chosenIds w.drawsFill data) 0
      ⟨g.gameTable, g.clues, prependTable g.dom⟩ hok
  obtain ⟨t, rows, hrows, _, _⟩ := fillRows_spec (NUM_CATEGORIES - 1) 0
    (⟨g.gameTable, g.clues ++ cl,
      (prependTable g.dom).map (Option.map fun t => ⟨t.headerRow ++ titles, t.body⟩)⟩ : Game)
    (Nat.zero_le _)
  have hdom1 : (prependTable g.dom).map
        (Option.map fun t => (⟨t.headerRow ++ titles, t.body⟩ : Table)) =
      some (⟨titles, []⟩ : Table) ::
        g.dom.map (Option.map fun tb => (⟨tb.headerRow ++ titles, tb.body⟩ : Table)) := by
    simp [prependTable]
  have hrows' : fillRows (NUM_CATEGORIES - 1) 0 ⟨g.gameTable, g.clues ++ cl,
        some ⟨titles, []⟩ ::
          g.dom.map (Option.map fun tb => ⟨tb.headerRow ++ titles, tb.body⟩)⟩ =
        .ok ⟨t, g.clues ++ cl,
          some ⟨titles, rows⟩ ::
            g.dom.map (Option.map fun tb => ⟨tb.headerRow ++ titles, tb.body ++ rows⟩)⟩ := by
    rw [← hdom1, hrows]
    simp [prependTable, List.map_map, Function.comp_def, Option.map_map]
  refine ⟨t, cl, titles, rows, ?_, ?_, ?_, ?_, hrows'⟩
  · unfold fillTable
    rw [hlist, getCategoryIds_eq_chosenIds data _ hlen]
    simp only []
    rw [hrun]
    simp only []
    rw [hdom1]
    exact hrows'
  · rw [hl1, chosenIds_length data _ hlen]
  · rw [hl2, chosenIds_length data _ hlen]
  · intro j id c h1 h2
    have := hget j id c h1 (by rw [Nat.zero_add]; exact h2)
    rwa [Nat.zero_add] at this

/-- C7: when the listing has at least `NUM_CATEGORIES` entries, for every outcome
of the shuffle `getCategoryIds` returns exactly `NUM_CATEGORIES` ids, the ids of
the first `NUM_CATEGORIES` entries of the shuffled listing in order; they are
pairwise distinct when the ids of the listing are; and a build whose detail
requests all succeed renders exactly `NUM_CATEGORIES` headers in its new table. -/
theorem getCategoryIds_exact (data : List CatEntry) (d : Draws)
    (h : NUM_CATEGORIES ≤ data.length) :
    getCategoryIds (.ok data) d =
      .ok (((shuffle d data).take NUM_CATEGORIES).map CatEntry.id) ∧
    (((shuffle d data).take NUM_CATEGORIES).map CatEntry.id).length = NUM_CATEGORIES ∧
    ((data.map CatEntry.id).Nodup →
      (((shuffle d data).take NUM_CATEGORIES).map CatEntry.id).Nodup) ∧
    (∀ (w : World) (g : Game), w.listFill = .ok data → w.drawsFill = d →
      (∀ j id, (((shuffle d data).take NUM_CATEGORIES).map CatEntry.id)[j]? = some id →
        ∃ c, w.detail j id = .ok c) →
      ∃ g' tb, fillTable w g = .ok g' ∧ g'.dom.head? = some (some tb) ∧
        tb.headerRow.length = NUM_CATEGORIES) := by
  refine ⟨getCategoryIds_ok data d h, chosenIds_length data d h, chosenIds_nodup data d, ?_⟩
  intro w g hlist hdraws hfetch
  subst hdraws
  obtain ⟨t, cl, titles, rows, hrun, _, hl2, _, _⟩ := fillTable_spec w g data hlist h hfetch
  exact ⟨_, ⟨titles, rows⟩, hrun, rfl, hl2⟩

/-- Witness of C7 on a listing of eight entries. -/
theorem getCategoryIds_exact_witness :
    NUM_CATEGORIES ≤ (sampleListing 0 8).length ∧
    getCategoryIds (.ok (sampleListing 0 8)) lastDraws =
      .ok (((shuffle lastDraws (sampleListing 0 8)).take NUM_CATEGORIES).map CatEntry.id) :=
  ⟨by decide, (getCategoryIds_exact (sampleListing 0 8) lastDraws (by decide)).1⟩

/-- C6: a build started from the initial empty state, with a listing of at least
`NUM_CATEGORIES = 6` entries and a service giving five clues for each requested
category, produces a `gameTable` of 5 rows of 6 `null` cells, a page table of 6
headers and 5 rows of 6 cells showing `?`, and a `clues` array of 6 categories,
the `j`-th one a permutation of the five clues fetched for the `j`-th id. -/
theorem fillTable_from_initial (w : World) (data : List CatEntry)
    (hlist : w.listFill = .ok data) (hlen : NUM_CATEGORIES ≤ data.length)
    (hfetch : ∀ j id, (chosenIds w.drawsFill data)[j]? = some id →
      ∃ c, w.detail j id = .ok c ∧ c.clues.length = 5) :
    ∃ g', fillTable w Game.initial = .ok g' ∧
      g'.gameTable = List.replicate 5 (List.replicate 6 none) ∧
      g'.clues.length = 6 ∧
      (∀ j, j < 6 → ∃ id c cl, (chosenIds w.drawsFill data)[j]? = some id ∧
        w.detail j id = .ok c ∧ g'.clues[j]? = some cl ∧ cl.Perm c.clues ∧ cl.length = 5) ∧
      (∃ titles, titles.length = 6 ∧ g'.dom = [some ⟨titles, freshBody⟩]) ∧
      (∀ data0, w.listSetup = .ok data0 → NUM_CATEGORIES ≤ data0.length →
        startClick w Game.initial = .ok g') := by
  have hfetch' : ∀ j id, (chosenIds w.drawsFill data)[j]? = some id →
      ∃ c, w.detail j id = .ok c := by
    intro j id hj
    obtain ⟨c, hc, _⟩ := hfetch j id hj
    exact ⟨c, hc⟩
  obtain ⟨t, cl, titles, rows, hrun, hl1, hl2, hget, hrows⟩ :=
    fillTable_spec w Game.initial data hlist hlen hfetch'
  have heval : fillRows 5 0 ⟨[], cl, [some ⟨titles, []⟩]⟩ =
      .ok ⟨List.replicate 5 (List.replicate 6 none), cl, [some ⟨titles, freshBody⟩]⟩ := by
    simp [fillRows, fillRow, pushNull, NUM_CATEGORIES, appendRow, freshBody, List.range,
      List.range.loop, List.replicate]
  have hrows2 : fillRows 5 0 ⟨[], cl, [some ⟨titles, []⟩]⟩ =
      .ok ⟨t, cl, [some ⟨titles, rows ⟩]⟩ := hrows
  have hfinal : (⟨t, Game.initial.clues ++ cl,
      some ⟨titles, rows⟩ :: Game.initial.dom.map
        (Option.map fun tb => ⟨tb.headerRow ++ titles, tb.body ++ rows⟩)⟩ : Game) =
      ⟨List.replicate 5 (List.replicate 6 none), cl, [some ⟨titles, freshBody⟩]⟩ :=
    Except.ok.inj (hrows2.symm.trans heval)
  rw [hfinal] at hrun
  refine ⟨_, hrun, rfl, hl1, ?_, ⟨titles, hl2, rfl⟩, ?_⟩
  · intro j hj
    have hlt : j < (chosenIds w.drawsFill data).length := by
      rw [chosenIds_length data _ hlen]; exact hj
    obtain ⟨c, hc, hfive⟩ := hfetch j _ (List.getElem?_eq_getElem hlt)
    obtain ⟨hcl, _⟩ := hget j _ c (List.getElem?_eq_getElem hlt) hc
    refine ⟨_, c, _, List.getElem?_eq_getElem hlt, hc, hcl, shuffle_perm _ _, ?_⟩
    rw [(shuffle_perm _ _).length_eq, hfive]
  · intro data0 h0 hlen0
    unfold startClick setupAndStart
    rw [h0, getCategoryIds_ok data0 _ hlen0]
    exact hrun

/-- Witness of C6 on the sample service. -/
theorem fillTable_from_initial_witness :
    (sampleWorld "old" 0).listFill = .ok (sampleListing 0 8) ∧
    NUM_CATEGORIES ≤ (sampleListing 0 8).length ∧
    ∃ g', fillTable (sampleWorld "old" 0) Game.initial = .ok g' ∧
      g'.gameTable = List.replicate 5 (List.replicate 6 none) ∧
      g'.clues.length = 6 :=
  ⟨rfl, by decide,
    (fillTable_from_initial (sampleWorld "old" 0) (sampleListing 0 8) rfl (by decide)
      (fun _ _ _ => ⟨_, rfl, rfl⟩)).imp fun _ hg => ⟨hg.1, hg.2.1, hg.2.2.1⟩⟩

/-- C9, as stated, fails: on a listing of five entries `getCategoryIds` returns no
list of ids, it throws. -/
theorem getCategoryIds_short_counterexample :
    (sampleListing 0 5).length < NUM_CATEGORIES ∧
    getCategoryIds (.ok (sampleListing 0 5)) lastDraws = .error .typeError ∧
    ¬ ∃ ids, getCategoryIds (.ok (sampleListing 0 5)) lastDraws = .ok ids := by
  refine ⟨by decide, rfl, ?_⟩
  rintro ⟨ids, h⟩
  have h' : (Except.error JsError.typeError : Except JsError (List Nat)) = .ok ids := h
  exact Except.noConfusion h'

/-- Witness of the amended C9 on a listing of five entries. -/
theorem getCategoryIds_short_raises_witness :
    (sampleListing 0 5).length < NUM_CATEGORIES ∧
    getCategoryIds (.ok (sampleListing 0 5)) lastDraws = .error .typeError :=
  ⟨by decide, (getCategoryIds_short_raises (sampleListing 0 5) lastDraws (by decide)).1⟩

/-- C5 on the code: after a restart (first build, then a second click on start)
with five clues per category, `clues` holds 12 categories, `gameTable` has 10
rows, five of 12 cells and five of none, and the page shows 6 headers over 5
rows of 6 cells. -/
theorem restart_shape_mismatch :
    (firstBuild.map fun g => (g.clues.length, g.gameTable.map List.length)) =
      .ok (6, [6, 6, 6, 6, 6]) ∧
    (secondBuild.map fun g => g.clues.length) = .ok 12 ∧
    (secondBuild.map fun g => g.clues.map List.length) =
      .ok [5, 5, 5, 5, 5, 5, 5, 5, 5, 5, 5, 5] ∧
    (secondBuild.map fun g => g.gameTable.map List.length) =
      .ok [12, 12, 12, 12, 12, 0, 0, 0, 0, 0] ∧
    (secondBuild.map fun g => g.dom) =
      .ok [some ⟨["new", "new", "new", "new", "new", "new"], freshBody⟩, none] :=
  ⟨rfl, rfl, rfl, rfl, rfl⟩

/-- C10 on the code: after a restart the cell `0-0` is hidden and sits under the
header of the newly fetched category, whose clues are `clues[6]`, yet a click on
it displays the first question of the category of the earlier build. -/
theorem restart_click_shows_old_clue :
    (secondBuild.map fun g => cellAt g.gameTable 0 0) = .ok (some none) ∧
    (secondBuild.map fun g => g.dom.head?.map (Option.map fun tb => tb.headerRow[0]?)) =
      .ok (some (some (some "new"))) ∧
    (secondBuild.map fun g => clueAt g.clues 0 0) = .ok (some ⟨"old q0", "old a0"⟩) ∧
    (secondBuild.map fun g => clueAt g.clues 6 0) = .ok (some ⟨"new q0", "new a0"⟩) ∧
    (clickAfterRestart.map fun g => displayed 0 0 g.dom) = .ok (some "old q0") :=
  ⟨rfl, rfl, rfl, rfl, rfl⟩

end Jeopardy
